import Mathlib

/-
Verification of the incremental-conversion control core of
`remarkable-watcher` (`converter.py` and `watcher.py`), as a shallow
embedding in Lean 4.  Filesystem reads, the JSON layer and the external
converter processes are modelled as explicit inputs; Python exceptions
are modelled by an explicit error type.
-/

namespace RMWatcher

/-- Python exceptions that the modelled code can raise or catch. -/
inductive PyError where
  | ioError
  | attributeError
  | indexError
deriving DecidableEq, Repr

/-- Parsed JSON values, as produced by `json.loads`. -/
inductive Json where
  | str (s : String)
  | num (n : Int)
  | boolean (b : Bool)
  | null
  | arr (xs : List Json)
  | obj (kvs : List (String × Json))

/-- Python `isinstance(v, dict)`. -/
def Json.isObj : Json → Bool
  | Json.obj _ => true
  | _ => false

/-- Outcome of reading and `json.loads`-ing a document file: the file may be
missing, may fail to read or parse (`OSError` / `json.JSONDecodeError`), or
may parse to a JSON value. -/
inductive DocState where
  | missing
  | unparsable
  | parsed (j : Json)

/-- Association-list lookup, modelling Python `dict` read access (dict keys
are unique, so first match suffices). -/
def lookupA {β : Type} : List (String × β) → String → Option β
  | [], _ => none
  | (k, v) :: rest, key => if k = key then some v else lookupA rest key

/-- Association-list update, modelling Python `d[k] = v`: replace in place
when the key is present, append otherwise. -/
def setA {β : Type} : List (String × β) → String → β → List (String × β)
  | [], k, v => [(k, v)]
  | (k', v') :: rest, k, v =>
      if k' = k then (k, v) :: rest else (k', v') :: setA rest k v

/-- A filesystem path, split the way `pathlib.Path` is used by the code:
a containing directory, a stem, and an extension. -/
structure FilePath' where
  dir : String
  stem : String
  ext : String
deriving DecidableEq, Repr

/-- Python `str(path)`. -/
def FilePath'.toStr (p : FilePath') : String := p.dir ++ "/" ++ p.stem ++ p.ext

/-- The destination path `output_dir / f"{rm_file.stem}.pdf"` used by
`needs_conversion` and `convert`. -/
def outputPdf (output_dir : String) (rm : FilePath') : FilePath' :=
  { dir := output_dir, stem := rm.stem, ext := ".pdf" }

/-- The filesystem as seen through `file_hash` and `Path.exists`:
`fileHash` models `file_hash(path)` (SHA-256 of the contents), which raises
`IOError` when the file cannot be read; `fileExists` models `path.exists()`. -/
structure FSView where
  fileHash : FilePath' → Except PyError String
  fileExists : FilePath' → Bool

/-- One row of the conversion index, as written by `convert`:
`{"input": ..., "output": ...}`. -/
structure CacheEntry where
  input : String
  output : String
deriving DecidableEq, Repr

/-- The in-memory conversion index, keyed by `str(rm_file)`. -/
abbrev Metadata := List (String × CacheEntry)

/-- Embedding of `converter.needs_conversion(rm_file, output_dir, metadata,
verify)`.  Mirrors the source line by line: missing entry → `True`; changed
input hash → `True`; with `verify`, a missing or changed output PDF → `True`;
otherwise `False`.  A failing `file_hash` raises `IOError`, which the
function does not catch. -/
def needs_conversion (fs : FSView) (rm_file : FilePath') (output_dir : String)
    (metadata : Metadata) (verify : Bool) : Except PyError Bool :=
  match lookupA metadata rm_file.toStr with
  | none => .ok true
  | some entry =>
    match fs.fileHash rm_file with
    | .error e => .error e
    | .ok h =>
      if h ≠ entry.input then .ok true
      else if verify then
        if fs.fileExists (outputPdf output_dir rm_file) = false then .ok true
        else
          match fs.fileHash (outputPdf output_dir rm_file) with
          | .error e => .error e
          | .ok ho => .ok (decide (ho ≠ entry.output))
      else .ok false

/-- Result of `load_metadata`: the returned index (the parsed document when
it is kept), whether the on-disk file was removed (`meta_file.unlink()`), and
whether the incompatible-format warning was printed. -/
structure LoadOutcome where
  index : List (String × Json)
  removed : Bool
  warned : Bool

/-- Embedding of `converter.load_metadata(output_dir)` over the state of the
on-disk document.  Missing file → empty index.  `json.JSONDecodeError` /
`OSError` are caught → empty index, file left in place, no warning.  A parsed
dict with any non-dict value → warning, `unlink`, empty index; otherwise the
dict is returned.  A document parsing to a non-dict value hits
`data.values()` and raises `AttributeError`, which is not caught. -/
def load_metadata (doc : DocState) : Except PyError LoadOutcome :=
  match doc with
  | .missing => .ok ⟨[], false, false⟩
  | .unparsable => .ok ⟨[], false, false⟩
  | .parsed (Json.obj kvs) =>
      if kvs.any (fun kv => !(Json.isObj kv.2)) then .ok ⟨[], true, true⟩
      else .ok ⟨kvs, false, false⟩
  | .parsed _ => .error .attributeError

/-- ASCII byte values of a Lean string (used only for ASCII literals). -/
def strBytes (s : String) : List Nat := s.toList.map Char.toNat

/-- The 32-byte header common to all known .rm formats,
`b"reMarkable .lines file, version="`. -/
def headerMagic : List Nat := strBytes "reMarkable .lines file, version="

/-- Whether the first list is an initial segment of the second
(Python `bytes.startswith`). -/
def startsWith : List Nat → List Nat → Bool
  | [], _ => true
  | _ :: _, [] => false
  | a :: as, b :: bs => a = b && startsWith as bs

/-- Python `str.split()` whitespace characters (after an ASCII decode only
these can occur). -/
def isWs (c : Nat) : Bool :=
  c = 32 || c = 9 || c = 10 || c = 11 || c = 12 || c = 13

/-- Helper for `splitWs`: accumulates the current token (reversed). -/
def splitWsAux : List Nat → List Nat → List (List Nat)
  | [], acc => if acc.isEmpty then [] else [acc.reverse]
  | c :: rest, acc =>
      if isWs c then
        if acc.isEmpty then splitWsAux rest []
        else acc.reverse :: splitWsAux rest []
      else splitWsAux rest (c :: acc)

/-- Python `str.split()` with no arguments: split on runs of whitespace,
dropping empty tokens. -/
def splitWs (cs : List Nat) : List (List Nat) := splitWsAux cs []

/-- ASCII decimal digit test. -/
def isDigit (c : Nat) : Bool := 48 ≤ c && c ≤ 57

/-- After one digit has been consumed: Python `int` accepts further digits,
with single underscores allowed only between digits. -/
def digitTail : List Nat → Bool
  | [] => true
  | c :: rest =>
      if isDigit c then digitTail rest
      else if c = 95 then
        match rest with
        | d :: rest' => isDigit d && digitTail rest'
        | [] => false
      else false

/-- Whether a byte list is a valid unsigned body for Python `int`. -/
def digitsOk : List Nat → Bool
  | [] => false
  | c :: rest => isDigit c && digitTail rest

/-- Numeric value of a digit string, ignoring underscores. -/
def digitsToNat (cs : List Nat) : Nat :=
  (cs.filter (fun c => c ≠ 95)).foldl (fun a c => a * 10 + (c - 48)) 0

/-- Python `int(token)` on an already-stripped ASCII token: optional sign,
then digits (underscores between digits allowed); `none` models
`ValueError`. -/
def pyInt (cs : List Nat) : Option Int :=
  match cs with
  | 43 :: rest => if digitsOk rest then some ((digitsToNat rest : Nat) : Int) else none
  | 45 :: rest => if digitsOk rest then some (-((digitsToNat rest : Nat) : Int)) else none
  | _ => if digitsOk cs then some ((digitsToNat cs : Nat) : Int) else none

/-- Embedding of `converter.get_rm_version(filepath)` over the file's byte
content (`none` = the `open`/`read` raised `OSError`, which the function
catches).  Mirrors the source: read 64 bytes; on a header-prefix match,
ASCII-decode the rest dropping non-ASCII bytes, split on whitespace, and
apply `int` to the first token (`ValueError` caught → `None`).  When the
split produces no token at all, `rest.split()[0]` raises `IndexError`,
which is not caught. -/
def get_rm_version (file : Option (List Nat)) : Except PyError (Option Int) :=
  match file with
  | none => .ok none
  | some bs =>
    let header := bs.take 64
    if startsWith headerMagic header then
      let rest := (header.drop headerMagic.length).filter (fun c => c < 128)
      match splitWs rest with
      | [] => .error .indexError
      | tok :: _ =>
        match pyInt tok with
        | some n => .ok (some n)
        | none => .ok none
    else .ok none

/-- Python `v == s` for a JSON value against a string literal, as used by
the membership test `data.get("fileType", "") not in ("pdf", "epub")`. -/
def jsonIsStrVal (j : Json) (s : String) : Bool :=
  match j with
  | Json.str t => t = s
  | _ => false

/-- Embedding of `converter.is_notebook(rm_file)` over the state of the
sibling `<uuid>.content` descriptor document.  Missing file → `True`;
`json.JSONDecodeError` / `OSError` → `True`; a parsed dict → `True` unless
`data.get("fileType", "")` equals `"pdf"` or `"epub"`.  A document parsing
to a non-dict value hits `data.get` and raises `AttributeError`, which is
not caught. -/
def is_notebook (d : DocState) : Except PyError Bool :=
  match d with
  | .missing => .ok true
  | .unparsable => .ok true
  | .parsed (Json.obj kvs) =>
      let v := (lookupA kvs "fileType").getD (Json.str "")
      .ok (!(jsonIsStrVal v "pdf" || jsonIsStrVal v "epub"))
  | .parsed _ => .error .attributeError

/-- `_BLANK_PDF_THRESHOLD = 10_000` bytes. -/
def blankThreshold : Nat := 10000

/-- Behaviour of the one `subprocess.run` call inside `convert`:
the tool may exit 0 having written a scratch file of a given size, exit 0
without writing it (so `tmp_pdf.stat()` raises `FileNotFoundError`), exit
nonzero (`CalledProcessError`), or be absent (`FileNotFoundError` from
`subprocess.run` itself). -/
inductive ToolRun where
  | wrote (size : Nat)
  | noOutput
  | exitNonzero
  | binMissing
deriving DecidableEq, Repr

/-- Terminal state of one `convert` invocation; `raised e` records an
exception escaping `convert` uncaught. -/
inductive ConvertOutcome where
  | skippedNotConvertible
  | skippedUnrecognized
  | skippedBlank
  | converted
  | failedTool
  | failedMissing
  | raised (e : PyError)
deriving DecidableEq, Repr

/-- Environment of one `convert` invocation: the filesystem view used by
`file_hash`, the sibling descriptor state, the .rm file bytes, the external
tool's behaviour, and the scratch path allocated by `tempfile.mkstemp`. -/
structure ConvertEnv where
  fs : FSView
  descriptor : DocState
  fileBytes : Option (List Nat)
  tool : ToolRun
  scratch : String

/-- Observable effects of one `convert` invocation. -/
structure ConvertResult where
  outcome : ConvertOutcome
  invoked : Option (List String)
  scratchRemains : Bool
  destWritten : Option (FilePath' × Nat)
  metadataAfter : Option Metadata
  saved : Bool

/-- The command line built by `convert`:
`["rmc", src, "-o", scratch]` for version ≥ 6, `["rm2pdf", src, scratch]`
below. -/
def toolCmd (version : Int) (src scratch : String) : List String :=
  if 6 ≤ version then ["rmc", src, "-o", scratch]
  else ["rm2pdf", src, scratch]

/-- Embedding of `converter.convert(rm_file, output_dir, metadata, ...)`,
following the source's control flow: classify via `is_notebook` and
`get_rm_version` (skips); build the command; run the tool; on
`CalledProcessError` / `FileNotFoundError` unlink the scratch file and
report; on success, a scratch size at or below `_BLANK_PDF_THRESHOLD` is
discarded as blank, otherwise the scratch file is moved to the destination
and, when an index was supplied, an entry of fresh `file_hash` digests of
source and destination is recorded and persisted. -/
def convert (rm_file : FilePath') (output_dir : String) (env : ConvertEnv)
    (metadata : Option Metadata) : ConvertResult :=
  match is_notebook env.descriptor with
  | .error e => ⟨.raised e, none, false, none, metadata, false⟩
  | .ok false => ⟨.skippedNotConvertible, none, false, none, metadata, false⟩
  | .ok true =>
    match get_rm_version env.fileBytes with
    | .error e => ⟨.raised e, none, false, none, metadata, false⟩
    | .ok none => ⟨.skippedUnrecognized, none, false, none, metadata, false⟩
    | .ok (some v) =>
      let cmd := toolCmd v rm_file.toStr env.scratch
      match env.tool with
      | .exitNonzero => ⟨.failedTool, some cmd, false, none, metadata, false⟩
      | .binMissing => ⟨.failedMissing, some cmd, false, none, metadata, false⟩
      | .noOutput => ⟨.failedMissing, some cmd, false, none, metadata, false⟩
      | .wrote n =>
        if n ≤ blankThreshold then
          ⟨.skippedBlank, some cmd, false, none, metadata, false⟩
        else
          let dest := outputPdf output_dir rm_file
          match metadata with
          | none => ⟨.converted, some cmd, false, some (dest, n), none, false⟩
          | some m =>
            match env.fs.fileHash rm_file with
            | .error e => ⟨.raised e, some cmd, false, some (dest, n), some m, false⟩
            | .ok hi =>
              match env.fs.fileHash dest with
              | .error e => ⟨.raised e, some cmd, false, some (dest, n), some m, false⟩
              | .ok ho =>
                  ⟨.converted, some cmd, false, some (dest, n),
                   some (setA m rm_file.toStr ⟨hi, ho⟩), true⟩

/-- State of the `_RMHandler` debounce scheduler, together with an event log:
`pending` models the `self._pending` dict mapping each path to its timer
(timers are numbered by creation order via `nextId`); `cancelled` and
`started` record `Timer.cancel` / `Timer.start` calls, and `syncRuns`
records synchronous `convert` invocations on the zero-delay path. -/
structure SchedState where
  pending : List (String × Nat)
  nextId : Nat
  cancelled : List Nat
  started : List Nat
  syncRuns : List String
deriving DecidableEq, Repr

/-- Embedding of `_RMHandler._schedule(path)` with configured delay `d`
(seconds, as an exact rational standing in for the Python float): with
`d > 0`, cancel any pending timer for `path`, install a fresh timer in the
map (cancel-and-replace) and start it; otherwise call `convert`
synchronously with no timer bookkeeping. -/
def schedule (d : ℚ) (path : String) (s : SchedState) : SchedState :=
  if 0 < d then
    let cancelledNow :=
      match lookupA s.pending path with
      | some t => s.cancelled ++ [t]
      | none => s.cancelled
    { pending := setA s.pending path s.nextId
      nextId := s.nextId + 1
      cancelled := cancelledNow
      started := s.started ++ [s.nextId]
      syncRuns := s.syncRuns }
  else
    { s with syncRuns := s.syncRuns ++ [path] }

/-- Embedding of the startup scan's pending-list comprehension in
`watcher.main`: `[f for f in rm_files if needs_conversion(f, output,
metadata, verify=verify)]`.  An exception raised by `needs_conversion` for
any file propagates and aborts the whole comprehension. -/
def scanPending (fs : FSView) (output_dir : String) (metadata : Metadata)
    (verify : Bool) : List FilePath' → Except PyError (List FilePath')
  | [] => .ok []
  | f :: rest =>
    match needs_conversion fs f output_dir metadata verify with
    | .error e => .error e
    | .ok b =>
      match scanPending fs output_dir metadata verify rest with
      | .error e => .error e
      | .ok tail => .ok (if b then f :: tail else tail)

theorem lookupA_setA_self {β : Type} (m : List (String × β)) (k : String) (v : β) :
    lookupA (setA m k v) k = some v := by
  induction m with
  | nil => simp [setA, lookupA]
  | cons kv rest ih =>
    obtain ⟨k', v'⟩ := kv
    by_cases h : k' = k
    · simp [setA, lookupA, h]
    · simp [setA, lookupA, h, ih]

theorem lookupA_setA_ne {β : Type} (m : List (String × β)) (k k' : String) (v : β)
    (h : k' ≠ k) : lookupA (setA m k v) k' = lookupA m k' := by
  have h' : ¬ k = k' := fun hh => h hh.symm
  induction m with
  | nil => simp [setA, lookupA, h']
  | cons kv rest ih =>
    obtain ⟨a, b⟩ := kv
    by_cases ha : a = k
    · subst ha
      simp [setA, lookupA, h']
    · simp [setA, lookupA, ha, ih]

theorem lookupA_eq_none_iff {β : Type} (m : List (String × β)) (k : String) :
    lookupA m k = none ↔ k ∉ m.map Prod.fst := by
  induction m with
  | nil => simp [lookupA]
  | cons kv rest ih =>
    obtain ⟨a, b⟩ := kv
    by_cases ha : a = k
    · simp [lookupA, ha]
    · have ha' : ¬ k = a := fun hh => ha hh.symm
      simp [lookupA, ha, ih, ha']

theorem keys_setA {β : Type} (m : List (String × β)) (k : String) (v : β) :
    (setA m k v).map Prod.fst =
      if k ∈ m.map Prod.fst then m.map Prod.fst
      else m.map Prod.fst ++ [k] := by
  induction m with
  | nil => simp [setA]
  | cons kv rest ih =>
    obtain ⟨a, b⟩ := kv
    by_cases ha : a = k
    · subst ha
      simp [setA]
    · have ha' : ¬ k = a := fun hh => ha hh.symm
      by_cases hc : k ∈ rest.map Prod.fst
      · simp [setA, ha, ha', ih, hc]
      · simp [setA, ha, ha', ih, hc]

theorem length_setA {β : Type} (m : List (String × β)) (k : String) (v : β) :
    (setA m k v).length =
      if k ∈ m.map Prod.fst then m.length else m.length + 1 := by
  induction m with
  | nil => simp [setA]
  | cons kv rest ih =>
    obtain ⟨a, b⟩ := kv
    by_cases ha : a = k
    · subst ha
      simp [setA]
    · have ha' : ¬ k = a := fun hh => ha hh.symm
      by_cases hc : k ∈ rest.map Prod.fst
      · simp [setA, ha, ha', ih, hc]
      · simp [setA, ha, ha', ih, hc]

theorem keys_setA_nodup {β : Type} (m : List (String × β)) (k : String) (v : β)
    (h : (m.map Prod.fst).Nodup) : ((setA m k v).map Prod.fst).Nodup := by
  rw [keys_setA]
  by_cases hk : k ∈ m.map Prod.fst
  · simpa [hk] using h
  · simp [hk, List.nodup_append, h]

/-- C1: `needs_conversion` returns `True` exactly when the page has no index
entry, or its current input hash differs from the stored one, or — with
`verify` set — the output PDF is missing or its hash differs from the stored
output digest; under the hash hypotheses it never raises, and with `verify`
unset its result does not depend on the output file at all. -/
theorem needs_conversion_spec (fs : FSView) (rm_file : FilePath')
    (output_dir : String) (metadata : Metadata) (verify : Bool) (hi ho : String)
    (hhi : fs.fileHash rm_file = .ok hi)
    (hho : fs.fileHash (outputPdf output_dir rm_file) = .ok ho) :
    (needs_conversion fs rm_file output_dir metadata verify = .ok true ↔
      lookupA metadata rm_file.toStr = none ∨
      ∃ e, lookupA metadata rm_file.toStr = some e ∧
        (hi ≠ e.input ∨ (verify = true ∧
          (fs.fileExists (outputPdf output_dir rm_file) = false ∨
           ho ≠ e.output)))) ∧
    (∃ b, needs_conversion fs rm_file output_dir metadata verify = .ok b) ∧
    (∀ fs' : FSView, fs'.fileHash rm_file = fs.fileHash rm_file →
      needs_conversion fs' rm_file output_dir metadata false =
        needs_conversion fs rm_file output_dir metadata false) := by
  refine ⟨?_, ?_, ?_⟩
  · cases hE : lookupA metadata rm_file.toStr with
    | none => simp [needs_conversion, hE]
    | some entry =>
      by_cases hin : hi = entry.input
      · cases verify with
        | false => simp [needs_conversion, hE, hhi, hin]
        | true =>
          by_cases hex : fs.fileExists (outputPdf output_dir rm_file) = false
          · simp [needs_conversion, hE, hhi, hin, hex]
          · by_cases hout : ho = entry.output
            · simp [needs_conversion, hE, hhi, hho, hin, hex, hout]
            · simp [needs_conversion, hE, hhi, hho, hin, hex, hout]
      · simp [needs_conversion, hE, hhi, hin]
  · cases hE : lookupA metadata rm_file.toStr with
    | none => exact ⟨true, by simp [needs_conversion, hE]⟩
    | some entry =>
      by_cases hin : hi = entry.input
      · cases verify with
        | false => exact ⟨false, by simp [needs_conversion, hE, hhi, hin]⟩
        | true =>
          by_cases hex : fs.fileExists (outputPdf output_dir rm_file) = false
          · exact ⟨true, by simp [needs_conversion, hE, hhi, hin, hex]⟩
          · exact ⟨decide (ho ≠ entry.output),
              by simp [needs_conversion, hE, hhi, hho, hin, hex]⟩
      · exact ⟨true, by simp [needs_conversion, hE, hhi, hin]⟩
  · intro fs' h
    cases hE : lookupA metadata rm_file.toStr with
    | none => simp [needs_conversion, hE]
    | some entry => simp [needs_conversion, hE, h]

def c1Page : FilePath' := ⟨"w", "p1", ".rm"⟩

def c1FS : FSView :=
  { fileHash := fun p => if p = c1Page then .ok "h1" else .ok "h2"
    fileExists := fun _ => true }

def c1Meta : Metadata := [("w/p1.rm", ⟨"stale", "o"⟩)]

/-- Witness for C1 at a concrete page whose stored input digest is stale. -/
theorem needs_conversion_spec_witness :
    needs_conversion c1FS c1Page "out" c1Meta false = .ok true :=
  (needs_conversion_spec c1FS c1Page "out" c1Meta false "h1" "h2" rfl rfl).1.mpr
    (Or.inr ⟨⟨"stale", "o"⟩, rfl, Or.inl (by decide)⟩)

/-- C2 counterexample: on a document that fails to parse (`JSONDecodeError`),
`load_metadata` returns an empty index but does not remove the on-disk file
and emits no warning, contrary to the claim that a malformed document is
discarded with a warning and file removal. -/
theorem load_metadata_malformed_keeps_file :
    load_metadata DocState.unparsable = .ok ⟨[], false, false⟩ := rfl

/-- C2 (amended): `load_metadata` returns an empty index on a missing file;
on a parse failure it returns an empty index silently, leaving the file in
place; the on-disk file is removed exactly when the document parses to a
mapping containing a non-record value, in which case the warning is emitted
and the index is empty; a mapping of records is returned unchanged. -/
theorem load_metadata_amended (doc : DocState) (r : LoadOutcome)
    (h : load_metadata doc = .ok r) :
    (r.removed = true ↔ ∃ kvs, doc = DocState.parsed (Json.obj kvs) ∧
        kvs.any (fun kv => !(Json.isObj kv.2)) = true) ∧
    (r.removed = true → r.warned = true ∧ r.index = []) ∧
    ((doc = DocState.missing ∨ doc = DocState.unparsable) →
      r.index = [] ∧ r.removed = false ∧ r.warned = false) ∧
    (r.removed = false → r.warned = false ∧
      (∀ kvs, doc = DocState.parsed (Json.obj kvs) → r.index = kvs)) := by
  cases doc with
  | missing =>
    simp [load_metadata] at h
    subst h
    simp
  | unparsable =>
    simp [load_metadata] at h
    subst h
    simp
  | parsed j =>
    cases j with
    | obj kvs =>
      by_cases hb : kvs.any (fun kv => !(Json.isObj kv.2)) = true
      · simp [load_metadata, hb] at h
        subst h
        simp [hb]
        simpa using hb
      · simp [load_metadata, hb] at h
        subst h
        simp [hb]
        simpa using hb
    | str s => simp [load_metadata] at h
    | num n => simp [load_metadata] at h
    | boolean b => simp [load_metadata] at h
    | null => simp [load_metadata] at h
    | arr xs => simp [load_metadata] at h

/-- Witness for C2's amended theorem at a mapping with a bare-string value. -/
theorem load_metadata_amended_witness :
    load_metadata (DocState.parsed (Json.obj [("k", Json.str "v")])) =
      .ok ⟨[], true, true⟩ ∧ (LoadOutcome.mk [] true true).warned = true :=
  ⟨rfl, ((load_metadata_amended (DocState.parsed (Json.obj [("k", Json.str "v")]))
    ⟨[], true, true⟩ rfl).2.1 rfl).1⟩

/-- C3: evaluating `get_rm_version` on a file whose entire content is exactly
the 32-byte header magic (so the tail after the prefix is empty) raises
`IndexError` from `rest.split()[0]` instead of returning `None`. -/
theorem get_rm_version_empty_tail_raises :
    get_rm_version (some headerMagic) = .error .indexError := rfl

theorem convert_saved_only_converted (rm_file : FilePath') (output_dir : String)
    (env : ConvertEnv) (md : Option Metadata)
    (h : (convert rm_file output_dir env md).saved = true) :
    (convert rm_file output_dir env md).outcome = ConvertOutcome.converted := by
  cases hd : is_notebook env.descriptor with
  | error e => simp [convert, hd] at h
  | ok b =>
    cases b with
    | false => simp [convert, hd] at h
    | true =>
      cases hv : get_rm_version env.fileBytes with
      | error e => simp [convert, hd, hv] at h
      | ok o =>
        cases o with
        | none => simp [convert, hd, hv] at h
        | some v =>
          cases htl : env.tool with
          | exitNonzero => simp [convert, hd, hv, htl] at h
          | binMissing => simp [convert, hd, hv, htl] at h
          | noOutput => simp [convert, hd, hv, htl] at h
          | wrote n =>
            by_cases hn : n ≤ blankThreshold
            · simp [convert, hd, hv, htl, hn] at h
            · cases md with
              | none => simp [convert, hd, hv, htl, hn] at h
              | some m =>
                cases hh1 : env.fs.fileHash rm_file with
                | error e => simp [convert, hd, hv, htl, hn, hh1] at h
                | ok hi =>
                  cases hh2 : env.fs.fileHash (outputPdf output_dir rm_file) with
                  | error e => simp [convert, hd, hv, htl, hn, hh1, hh2] at h
                  | ok ho => simp [convert, hd, hv, htl, hn, hh1, hh2]

/-- C4: when the external tool succeeds, a scratch output at or below the
blank threshold is deleted with nothing written to the destination and no
index entry recorded; a larger scratch output is moved to
`<pageStem>.pdf` in the destination directory and, when an index was
supplied, an entry of freshly recomputed source/destination digests is
recorded (and its persistence flagged). -/
theorem convert_success_spec (rm_file : FilePath') (output_dir : String)
    (env : ConvertEnv) (n : Nat) (v : Int) (hi ho : String)
    (hnb : is_notebook env.descriptor = .ok true)
    (hv : get_rm_version env.fileBytes = .ok (some v))
    (ht : env.tool = ToolRun.wrote n)
    (hhi : env.fs.fileHash rm_file = .ok hi)
    (hho : env.fs.fileHash (outputPdf output_dir rm_file) = .ok ho) :
    (n ≤ blankThreshold → ∀ md : Option Metadata,
      convert rm_file output_dir env md =
        ⟨.skippedBlank, some (toolCmd v rm_file.toStr env.scratch),
         false, none, md, false⟩) ∧
    (blankThreshold < n → ∀ m : Metadata,
      convert rm_file output_dir env (some m) =
        ⟨.converted, some (toolCmd v rm_file.toStr env.scratch), false,
         some (outputPdf output_dir rm_file, n),
         some (setA m rm_file.toStr ⟨hi, ho⟩), true⟩ ∧
      lookupA (setA m rm_file.toStr ⟨hi, ho⟩) rm_file.toStr = some ⟨hi, ho⟩) ∧
    (blankThreshold < n →
      convert rm_file output_dir env none =
        ⟨.converted, some (toolCmd v rm_file.toStr env.scratch), false,
         some (outputPdf output_dir rm_file, n), none, false⟩) ∧
    outputPdf output_dir rm_file = ⟨output_dir, rm_file.stem, ".pdf"⟩ := by
  refine ⟨?_, ?_, ?_, rfl⟩
  · intro hn md
    simp [convert, hnb, hv, ht, hn]
  · intro hn m
    have hn' : ¬ n ≤ blankThreshold := Nat.not_le.mpr hn
    exact ⟨by simp [convert, hnb, hv, ht, hn', hhi, hho],
      lookupA_setA_self m rm_file.toStr ⟨hi, ho⟩⟩
  · intro hn
    have hn' : ¬ n ≤ blankThreshold := Nat.not_le.mpr hn
    simp [convert, hnb, hv, ht, hn']

def c4Page : FilePath' := ⟨"w", "pg", ".rm"⟩

def c4Env : ConvertEnv :=
  { fs := { fileHash := fun p => if p = c4Page then .ok "in50" else .ok "out50"
            fileExists := fun _ => true }
    descriptor := DocState.missing
    fileBytes := some (headerMagic ++ strBytes "6 ")
    tool := ToolRun.wrote 50000
    scratch := "tmp/scratch.pdf" }

/-- Witness for C4: a 50 KB tool output is moved to the destination and the
index gains an entry with the two fresh digests. -/
theorem convert_success_spec_witness :
    convert c4Page "out" c4Env (some []) =
      ⟨.converted, some (toolCmd 6 c4Page.toStr c4Env.scratch), false,
       some (outputPdf "out" c4Page, 50000),
       some [(c4Page.toStr, ⟨"in50", "out50"⟩)], true⟩ :=
  ((convert_success_spec c4Page "out" c4Env 50000 6 "in50" "out50"
      rfl rfl rfl rfl rfl).2.1 (by decide) []).1

/-- C5: a `Failed` terminal state (tool exited nonzero, or the tool binary
was missing) leaves no scratch file behind, writes nothing to the
destination, and leaves the cache index completely unchanged and
unpersisted; moreover, across all of `convert`, the index is only ever
persisted from the `Converted` terminal state. -/
theorem convert_failure_spec (rm_file : FilePath') (output_dir : String)
    (env : ConvertEnv) (md : Option Metadata) (v : Int)
    (hnb : is_notebook env.descriptor = .ok true)
    (hv : get_rm_version env.fileBytes = .ok (some v))
    (ht : env.tool = ToolRun.exitNonzero ∨ env.tool = ToolRun.binMissing) :
    (convert rm_file output_dir env md).scratchRemains = false ∧
    (convert rm_file output_dir env md).destWritten = none ∧
    (convert rm_file output_dir env md).metadataAfter = md ∧
    (convert rm_file output_dir env md).saved = false ∧
    ((convert rm_file output_dir env md).outcome = .failedTool ∨
     (convert rm_file output_dir env md).outcome = .failedMissing) ∧
    (∀ (env' : ConvertEnv) (md' : Option Metadata),
      (convert rm_file output_dir env' md').saved = true →
      (convert rm_file output_dir env' md').outcome = .converted) := by
  rcases ht with ht | ht
  · exact ⟨by simp [convert, hnb, hv, ht], by simp [convert, hnb, hv, ht],
      by simp [convert, hnb, hv, ht], by simp [convert, hnb, hv, ht],
      Or.inl (by simp [convert, hnb, hv, ht]),
      fun env' md' h => convert_saved_only_converted rm_file output_dir env' md' h⟩
  · exact ⟨by simp [convert, hnb, hv, ht], by simp [convert, hnb, hv, ht],
      by simp [convert, hnb, hv, ht], by simp [convert, hnb, hv, ht],
      Or.inr (by simp [convert, hnb, hv, ht]),
      fun env' md' h => convert_saved_only_converted rm_file output_dir env' md' h⟩

def c5Env : ConvertEnv :=
  { fs := { fileHash := fun _ => .ok "h", fileExists := fun _ => true }
    descriptor := DocState.missing
    fileBytes := some (headerMagic ++ strBytes "5 ")
    tool := ToolRun.exitNonzero
    scratch := "tmp/scratch.pdf" }

/-- Witness for C5 at a concrete failing-tool invocation with a non-empty
index. -/
theorem convert_failure_spec_witness :
    (convert c4Page "out" c5Env (some [("k", ⟨"a", "b"⟩)])).metadataAfter =
      some [("k", ⟨"a", "b"⟩)] ∧
    (convert c4Page "out" c5Env (some [("k", ⟨"a", "b"⟩)])).scratchRemains = false :=
  ⟨(convert_failure_spec c4Page "out" c5Env (some [("k", ⟨"a", "b"⟩)]) 5
      rfl rfl (Or.inl rfl)).2.2.1,
   (convert_failure_spec c4Page "out" c5Env (some [("k", ⟨"a", "b"⟩)]) 5
      rfl rfl (Or.inl rfl)).1⟩

/-- C7: once a page's format version is recognized, the external invocation
is determined solely by the version: `rmc <src> -o <scratch>` for version 6
and above, `rm2pdf <src> <scratch>` below 6 — regardless of the tool's
subsequent behaviour or the index supplied. -/
theorem convert_dispatch (rm_file : FilePath') (output_dir : String)
    (env : ConvertEnv) (md : Option Metadata) (v : Int)
    (hnb : is_notebook env.descriptor = .ok true)
    (hv : get_rm_version env.fileBytes = .ok (some v)) :
    (convert rm_file output_dir env md).invoked =
      some (toolCmd v rm_file.toStr env.scratch) ∧
    (∀ w : Int, w < 6 →
      toolCmd w rm_file.toStr env.scratch = ["rm2pdf", rm_file.toStr, env.scratch]) ∧
    (∀ w : Int, 6 ≤ w →
      toolCmd w rm_file.toStr env.scratch =
        ["rmc", rm_file.toStr, "-o", env.scratch]) := by
  refine ⟨?_, ?_, ?_⟩
  · cases htl : env.tool with
    | exitNonzero => simp [convert, hnb, hv, htl]
    | binMissing => simp [convert, hnb, hv, htl]
    | noOutput => simp [convert, hnb, hv, htl]
    | wrote n =>
      by_cases hn : n ≤ blankThreshold
      · simp [convert, hnb, hv, htl, hn]
      · cases md with
        | none => simp [convert, hnb, hv, htl, hn]
        | some m =>
          cases hh1 : env.fs.fileHash rm_file with
          | error e => simp [convert, hnb, hv, htl, hn, hh1]
          | ok hi =>
            cases hh2 : env.fs.fileHash (outputPdf output_dir rm_file) with
            | error e => simp [convert, hnb, hv, htl, hn, hh1, hh2]
            | ok ho => simp [convert, hnb, hv, htl, hn, hh1, hh2]
  · intro w hw
    have : ¬ 6 ≤ w := by omega
    simp [toolCmd, this]
  · intro w hw
    simp [toolCmd, hw]

/-- Witness for C7 at a version-5 page: `rm2pdf` is invoked positionally. -/
theorem convert_dispatch_witness :
    (convert c4Page "out" c5Env none).invoked =
      some ["rm2pdf", c4Page.toStr, c5Env.scratch] := by
  have h := convert_dispatch c4Page "out" c5Env none 5 rfl rfl
  rw [h.1, h.2.1 5 (by decide)]

theorem schedule_pending_nodup (d : ℚ) (p : String) (s : SchedState)
    (h : (s.pending.map Prod.fst).Nodup) :
    ((schedule d p s).pending.map Prod.fst).Nodup := by
  by_cases hd : 0 < d
  · simp only [schedule, if_pos hd]
    exact keys_setA_nodup s.pending p s.nextId h
  · simpa [schedule, if_neg hd] using h

theorem scheduleAll_pending_nodup (d : ℚ) (calls : List String) (s : SchedState)
    (h : (s.pending.map Prod.fst).Nodup) :
    (((calls.foldl (fun st q => schedule d q st) s).pending).map Prod.fst).Nodup := by
  induction calls generalizing s with
  | nil => simpa using h
  | cons q rest ih =>
    simp only [List.foldl_cons]
    exact ih (schedule d q s) (schedule_pending_nodup d q s h)

/-- C6: with a positive delay, `_schedule` cancels any pending timer for the
path and replaces its map entry with a freshly started timer — the pending
map keeps at most one entry per path across any sequence of calls, and
entries for distinct paths are untouched; with delay zero (or negative) the
conversion runs synchronously with no timer bookkeeping. -/
theorem schedule_spec (d : ℚ) (p : String) (s : SchedState)
    (hnd : (s.pending.map Prod.fst).Nodup) :
    (0 < d →
      lookupA (schedule d p s).pending p = some s.nextId ∧
      (schedule d p s).started = s.started ++ [s.nextId] ∧
      (∀ q, q ≠ p → lookupA (schedule d p s).pending q = lookupA s.pending q) ∧
      (∀ t, lookupA s.pending p = some t →
        (schedule d p s).cancelled = s.cancelled ++ [t] ∧
        (schedule d p s).pending.length = s.pending.length) ∧
      (lookupA s.pending p = none →
        (schedule d p s).cancelled = s.cancelled ∧
        (schedule d p s).pending.length = s.pending.length + 1) ∧
      (schedule d p s).syncRuns = s.syncRuns) ∧
    (¬ 0 < d →
      schedule d p s = { s with syncRuns := s.syncRuns ++ [p] }) ∧
    ((schedule d p s).pending.map Prod.fst).Nodup ∧
    (∀ calls : List String,
      (((calls.foldl (fun st q => schedule d q st) s).pending).map Prod.fst).Nodup) := by
  refine ⟨?_, ?_, schedule_pending_nodup d p s hnd,
    fun calls => scheduleAll_pending_nodup d calls s hnd⟩
  · intro hd
    refine ⟨?_, ?_, ?_, ?_, ?_, ?_⟩
    · simp [schedule, hd, lookupA_setA_self]
    · simp [schedule, hd]
    · intro q hq
      simp only [schedule, if_pos hd]
      exact lookupA_setA_ne s.pending p q s.nextId hq
    · intro t htl
      have hkmem : p ∈ s.pending.map Prod.fst := by
        by_contra hc
        rw [(lookupA_eq_none_iff s.pending p).mpr hc] at htl
        cases htl
      refine ⟨by simp [schedule, hd, htl], ?_⟩
      simp [schedule, hd, length_setA, hkmem]
    · intro htl
      have hkmem : p ∉ s.pending.map Prod.fst :=
        (lookupA_eq_none_iff s.pending p).mp htl
      refine ⟨by simp [schedule, hd, htl], ?_⟩
      simp [schedule, hd, length_setA, hkmem]
    · simp [schedule, hd]
  · intro hd
    simp [schedule, hd]

def c6S0 : SchedState := ⟨[], 0, [], [], []⟩

/-- Witness for C6: the first schedule call with delay 1 installs timer 0 for
the path, and a delay-0 call only appends a synchronous conversion. -/
theorem schedule_spec_witness :
    lookupA (schedule 1 "a" c6S0).pending "a" = some c6S0.nextId ∧
    schedule 0 "b" c6S0 = { c6S0 with syncRuns := c6S0.syncRuns ++ ["b"] } :=
  ⟨((schedule_spec 1 "a" c6S0 (by simp [c6S0])).1 (by norm_num)).1,
   (schedule_spec 0 "b" c6S0 (by simp [c6S0])).2.1 (by norm_num)⟩

/-- C8: `is_notebook` returns `False` exactly when the sibling descriptor
document exists, parses, and its `fileType` field is the string `"pdf"` or
`"epub"`; a missing descriptor, an unparsable descriptor, a parsed mapping
with no `fileType` field, and a parsed mapping whose `fileType` value is
anything else all yield `True`. -/
theorem is_notebook_spec (d : DocState) :
    (is_notebook d = .ok false ↔
      ∃ kvs, d = DocState.parsed (Json.obj kvs) ∧
        (lookupA kvs "fileType" = some (Json.str "pdf") ∨
         lookupA kvs "fileType" = some (Json.str "epub"))) ∧
    (is_notebook DocState.missing = .ok true) ∧
    (is_notebook DocState.unparsable = .ok true) ∧
    (∀ kvs, lookupA kvs "fileType" = none →
      is_notebook (DocState.parsed (Json.obj kvs)) = .ok true) ∧
    (∀ kvs v, lookupA kvs "fileType" = some v →
      v ≠ Json.str "pdf" → v ≠ Json.str "epub" →
      is_notebook (DocState.parsed (Json.obj kvs)) = .ok true) := by
  refine ⟨⟨?_, ?_⟩, rfl, rfl, ?_, ?_⟩
  · intro h
    cases d with
    | missing => simp [is_notebook] at h
    | unparsable => simp [is_notebook] at h
    | parsed j =>
      cases j with
      | obj kvs =>
        refine ⟨kvs, rfl, ?_⟩
        cases hlv : lookupA kvs "fileType" with
        | none => simp [is_notebook, hlv, jsonIsStrVal] at h
        | some w =>
          cases w with
          | str t =>
            simp [is_notebook, hlv, jsonIsStrVal] at h
            by_cases hpdf : t = "pdf"
            · subst hpdf
              exact Or.inl rfl
            · have hep := h hpdf
              subst hep
              exact Or.inr rfl
          | num n => simp [is_notebook, hlv, jsonIsStrVal] at h
          | boolean b => simp [is_notebook, hlv, jsonIsStrVal] at h
          | null => simp [is_notebook, hlv, jsonIsStrVal] at h
          | arr xs => simp [is_notebook, hlv, jsonIsStrVal] at h
          | obj kvs' => simp [is_notebook, hlv, jsonIsStrVal] at h
      | str s => simp [is_notebook] at h
      | num n => simp [is_notebook] at h
      | boolean b => simp [is_notebook] at h
      | null => simp [is_notebook] at h
      | arr xs => simp [is_notebook] at h
  · rintro ⟨kvs, rfl, hl | hl⟩ <;> simp [is_notebook, hl, jsonIsStrVal]
  · intro kvs hl
    simp [is_notebook, hl, jsonIsStrVal]
  · intro kvs v hl h1 h2
    cases v with
    | str t =>
      have ht1 : ¬ t = "pdf" := fun hh => h1 (by rw [hh])
      have ht2 : ¬ t = "epub" := fun hh => h2 (by rw [hh])
      simp [is_notebook, hl, jsonIsStrVal, ht1, ht2]
    | num n => simp [is_notebook, hl, jsonIsStrVal]
    | boolean b => simp [is_notebook, hl, jsonIsStrVal]
    | null => simp [is_notebook, hl, jsonIsStrVal]
    | arr xs => simp [is_notebook, hl, jsonIsStrVal]
    | obj kvs' => simp [is_notebook, hl, jsonIsStrVal]

/-- Witness for C8: a descriptor typed `"pdf"` yields `False` (page skipped
as an annotation). -/
theorem is_notebook_spec_witness :
    is_notebook (DocState.parsed (Json.obj [("fileType", Json.str "pdf")])) =
      .ok false :=
  (is_notebook_spec (DocState.parsed (Json.obj [("fileType", Json.str "pdf")]))).1.mpr
    ⟨[("fileType", Json.str "pdf")], rfl, Or.inl rfl⟩

/-- Whether an `Except` computation aborted with an exception. -/
def exceptAborts {ε α : Type} : Except ε α → Bool
  | .error _ => true
  | .ok _ => false

def c9Page1 : FilePath' := ⟨"w", "q1", ".rm"⟩

def c9Page2 : FilePath' := ⟨"w", "q2", ".rm"⟩

def c9FS : FSView :=
  { fileHash := fun p => if p = c9Page1 then .error .ioError else .ok "h"
    fileExists := fun _ => true }

def c9Meta : Metadata := [("w/q1.rm", ⟨"x", "y"⟩), ("w/q2.rm", ⟨"h", "z"⟩)]

/-- C9 counterexample: with an index entry present for page `q1` and an
`IOError` raised while fingerprinting it, the startup scan's pending-list
comprehension aborts with that `IOError` — the sibling page `q2` is never
evaluated and nothing is converted, contrary to per-page isolation. -/
theorem scan_ioerror_cex :
    scanPending c9FS "out" c9Meta false [c9Page1, c9Page2] = .error .ioError := rfl

/-- C9 (amended): an `IOError` raised by `needs_conversion` while
fingerprinting any page of the startup scan propagates out of the list
comprehension, aborting the whole scan rather than that page alone. -/
theorem scan_ioerror_aborts (fs : FSView) (output_dir : String) (md : Metadata)
    (verify : Bool) (files : List FilePath') (f : FilePath') (e : PyError)
    (hmem : f ∈ files)
    (herr : needs_conversion fs f output_dir md verify = .error e) :
    exceptAborts (scanPending fs output_dir md verify files) = true := by
  induction files with
  | nil => cases hmem
  | cons g rest ih =>
    rcases List.mem_cons.mp hmem with rfl | hm
    · simp [scanPending, herr, exceptAborts]
    · cases hg : needs_conversion fs g output_dir md verify with
      | error e'' => simp [scanPending, hg, exceptAborts]
      | ok b =>
        have htail := ih hm
        cases hrest : scanPending fs output_dir md verify rest with
        | error e' => simp [scanPending, hg, hrest, exceptAborts]
        | ok tail =>
          rw [hrest] at htail
          simp [exceptAborts] at htail

/-- Witness for C9's amended theorem at the concrete two-page scan. -/
theorem scan_ioerror_aborts_witness :
    exceptAborts (scanPending c9FS "out" c9Meta false [c9Page1, c9Page2]) = true :=
  scan_ioerror_aborts c9FS "out" c9Meta false [c9Page1, c9Page2] c9Page1 .ioError
    (List.mem_cons_self _ _) rfl

/-- C10: the annotation-skip comparison is exact and case-sensitive — any
`fileType` string other than the lowercase `"pdf"` / `"epub"` (including
`"PDF"` and `"EPUB"`) classifies the page as a notebook. -/
theorem is_notebook_case_sensitive (kvs : List (String × Json)) (s : String)
    (hf : lookupA kvs "fileType" = some (Json.str s))
    (h1 : s ≠ "pdf") (h2 : s ≠ "epub") :
    is_notebook (DocState.parsed (Json.obj kvs)) = .ok true := by
  simp [is_notebook, hf, jsonIsStrVal, h1, h2]

/-- Witness for C10 at the uppercase variant `"PDF"`. -/
theorem is_notebook_case_sensitive_witness :
    is_notebook (DocState.parsed (Json.obj [("fileType", Json.str "PDF")])) =
      .ok true :=
  is_notebook_case_sensitive [("fileType", Json.str "PDF")] "PDF" rfl
    (by decide) (by decide)

end RMWatcher
